import Mathlib

/-!
Verification of the prompt-pipeline abstraction of `applied-ai-examples`.

The repository's examples are thin callers of an orchestration library; the
specification (spec.md §2–§8) describes the conceptual pipeline they all share:
Template → Model Invoker → Output Parser, plus parallel composition, a list
parser, schema-directed JSON parsing, and the agent/tool-dispatch conditionals
of `10_agents.py` and `09_functions.py`.  This file gives a shallow embedding
of that pipeline and settles the spec's testable properties against it.
-/

namespace S2P

/-! ## Templates (spec §3, §4.1; callers: src/03_1_multi_variable_prompts.py,
src/03_4_prompt_composition.py)

Modelled from the spec: the library's `ChatPromptTemplate.format_messages` is
not part of the repository, so resolution is modelled from spec §4.1: a
template is an ordered sequence of role-tagged patterns, a pattern alternating
literal text with named placeholders; resolution substitutes each placeholder
with its supplied string value and fails with `MissingVariable` naming the
first unresolved placeholder. -/

/-- Message roles of a request payload (spec §3: system, human,
prior-assistant-turn). -/
inductive Role where
  | system
  | human
  | assistant
deriving DecidableEq, Repr

/-- One segment of a parameterized pattern: literal text or a `\x7bname\x7d`
placeholder. -/
inductive Seg where
  | lit (s : String)
  | var (name : String)
deriving DecidableEq, Repr

/-- A template: an ordered sequence of role-tagged patterns. -/
abbrev Template := List (Role × List Seg)

/-- An input mapping of variable name to supplied string value. -/
abbrev Mapping := List (String × String)

/-- Look up a variable in the input mapping (first binding wins). -/
def lookupVar : Mapping → String → Option String
  | [], _ => none
  | (k, v) :: rest, n => if k = n then some v else lookupVar rest n

/-- Placeholder names of one pattern, in left-to-right order. -/
def segVars : List Seg → List String
  | [] => []
  | .lit _ :: rest => segVars rest
  | .var n :: rest => n :: segVars rest

/-- The placeholder set of a template, as the list of placeholder names in
order of occurrence. -/
def placeholders (t : Template) : List String :=
  (t.map (fun p => segVars p.2)).flatten

/-- Template-resolution failure (spec §7). -/
inductive TemplateError where
  | missingVariable (name : String)
deriving DecidableEq, Repr

/-- Resolve one pattern: substitute each placeholder with its mapped value,
failing on the first placeholder with no binding. -/
def resolveSegs (m : Mapping) : List Seg → Except TemplateError String
  | [] => .ok ""
  | .lit s :: rest => (resolveSegs m rest).map (fun r => s ++ r)
  | .var n :: rest =>
      match lookupVar m n with
      | none => .error (.missingVariable n)
      | some v => (resolveSegs m rest).map (fun r => v ++ r)

/-- Total substitution of one pattern: every placeholder replaced by its
mapped value (empty when unbound); used to state that successful resolution
leaves no placeholder unsubstituted. -/
def substSegs (m : Mapping) : List Seg → String
  | [] => ""
  | .lit s :: rest => s ++ substSegs m rest
  | .var n :: rest => (lookupVar m n).getD "" ++ substSegs m rest

/-- Resolve a template against an input mapping into a request payload
(role-tagged message list), or fail with the first missing variable.  Named
after the call the examples make (`format_messages`). -/
def format_messages (t : Template) (m : Mapping) :
    Except TemplateError (List (Role × String)) :=
  match t with
  | [] => .ok []
  | (r, segs) :: rest =>
      match resolveSegs m segs with
      | .error e => .error e
      | .ok c => (format_messages rest m).map (fun tail => (r, c) :: tail)

/-- A string contains no brace character (so in particular no literal
`\x7bname\x7d` placeholder). -/
def braceFree (s : String) : Prop := ∀ c ∈ s.data, c ≠ '{' ∧ c ≠ '}'

instance (s : String) : Decidable (braceFree s) := by
  unfold braceFree; infer_instance

/-! ### Resolution lemmas -/

theorem resolveSegs_ok_of_bound (m : Mapping) (segs : List Seg)
    (h : ∀ n ∈ segVars segs, (lookupVar m n).isSome) :
    resolveSegs m segs = .ok (substSegs m segs) := by
  induction segs with
  | nil => rfl
  | cons s rest ih =>
      cases s with
      | lit l =>
          have := ih (fun n hn => h n (by simpa [segVars] using hn))
          simp [resolveSegs, substSegs, this, Except.map]
      | var n =>
          have hn : (lookupVar m n).isSome := h n (by simp [segVars])
          obtain ⟨v, hv⟩ := Option.isSome_iff_exists.mp hn
          have := ih (fun n' hn' => h n' (by simp [segVars, hn']))
          simp [resolveSegs, substSegs, hv, this, Except.map]

theorem resolveSegs_error_of_missing (m : Mapping) (segs : List Seg) (n : String)
    (h : (segVars segs).find? (fun x => (lookupVar m x).isNone) = some n) :
    resolveSegs m segs = .error (.missingVariable n) := by
  induction segs with
  | nil => simp [segVars, List.find?] at h
  | cons s rest ih =>
      cases s with
      | lit l =>
          have := ih (by simpa [segVars] using h)
          simp [resolveSegs, this, Except.map]
      | var x =>
          simp only [segVars, List.find?] at h
          by_cases hx : (lookupVar m x).isNone
          · simp [hx] at h
            subst h
            simp only [Option.isNone_iff_eq_none] at hx
            simp [resolveSegs, hx]
          · simp [hx] at h
            have hsome : (lookupVar m x).isSome := by
              cases hlk : lookupVar m x with
              | none => simp [hlk] at hx
              | some v => simp
            obtain ⟨v, hv⟩ := Option.isSome_iff_exists.mp hsome
            have := ih h
            simp [resolveSegs, hv, this, Except.map]

theorem lookupVar_mem (m : Mapping) (n v : String)
    (h : lookupVar m n = some v) : (n, v) ∈ m := by
  induction m with
  | nil => simp [lookupVar] at h
  | cons p ms ihm =>
      rw [lookupVar] at h
      rcases p with ⟨k, w⟩
      by_cases hpn : k = n
      · simp [hpn] at h
        subst hpn; subst h
        simp
      · simp [hpn] at h
        right
        exact ihm h

theorem substSegs_braceFree (m : Mapping) (segs : List Seg)
    (hl : ∀ s, Seg.lit s ∈ segs → braceFree s)
    (hv : ∀ p ∈ m, braceFree p.2) :
    braceFree (substSegs m segs) := by
  induction segs with
  | nil => intro c hc; simp [substSegs, String.data] at hc
  | cons s rest ih =>
      have ihr : braceFree (substSegs m rest) :=
        ih (fun s hs => hl s (by simp [hs]))
      cases s with
      | lit l =>
          intro c hc
          rw [substSegs, String.data_append] at hc
          rcases List.mem_append.mp hc with h1 | h2
          · exact hl l (by simp) c h1
          · exact ihr c h2
      | var n =>
          intro c hc
          rw [substSegs, String.data_append] at hc
          rcases List.mem_append.mp hc with h1 | h2
          · cases hlk : lookupVar m n with
            | none => simp [hlk, String.data] at h1
            | some v =>
                have hmem : (n, v) ∈ m := lookupVar_mem m n v hlk
                have := hv (n, v) hmem
                simp [hlk] at h1
                exact this c h1
          · exact ihr c h2

theorem find?_append_eq (l₁ l₂ : List α) (p : α → Bool) :
    (l₁ ++ l₂).find? p = ((l₁.find? p).orElse (fun _ => l₂.find? p)) := by
  induction l₁ with
  | nil => simp
  | cons a l ih =>
      by_cases ha : p a
      · simp [List.find?, ha]
      · simp only [List.cons_append, List.find?, ha]
        simpa [ha] using ih

theorem format_messages_error_of_find (t : Template) (m : Mapping) (n : String)
    (h : (placeholders t).find? (fun x => (lookupVar m x).isNone) = some n) :
    format_messages t m = .error (.missingVariable n) := by
  induction t with
  | nil => simp [placeholders, List.find?] at h
  | cons p rest ih =>
      rcases p with ⟨r, segs⟩
      have hsplit : placeholders ((r, segs) :: rest)
          = segVars segs ++ placeholders rest := by
        simp [placeholders]
      rw [hsplit, find?_append_eq] at h
      cases hf : (segVars segs).find? (fun x => (lookupVar m x).isNone) with
      | none =>
          rw [hf] at h
          simp [Option.orElse] at h
          have hok : resolveSegs m segs = .ok (substSegs m segs) := by
            apply resolveSegs_ok_of_bound
            intro x hx
            have := List.find?_eq_none.mp hf x hx
            simpa [Option.isNone_iff_eq_none, ← Option.ne_none_iff_isSome] using this
          simp [format_messages, hok, ih h, Except.map]
      | some n' =>
          rw [hf] at h
          simp [Option.orElse] at h
          subst h
          have := resolveSegs_error_of_missing m segs n' hf
          simp [format_messages, this]

/-! ## Claim theorems: templates -/

/-- C1: for every template whose placeholders are all supplied by the input
mapping, `format_messages` succeeds, the payload it produces is the full
substitution of every placeholder by its mapped value (so no placeholder of
the template is left unresolved), and when the literal segments and supplied
values are brace-free the payload's message contents contain no literal
`\x7bname\x7d` at all. -/
theorem C1_resolution_succeeds_fully_substituted (t : Template) (m : Mapping)
    (h : ∀ n ∈ placeholders t, (lookupVar m n).isSome) :
    format_messages t m = .ok (t.map (fun p => (p.1, substSegs m p.2))) ∧
    ((∀ r segs, (r, segs) ∈ t → ∀ s, Seg.lit s ∈ segs → braceFree s) →
      (∀ p ∈ m, braceFree p.2) →
      ∀ msg ∈ t.map (fun p => (p.1, substSegs m p.2)), braceFree msg.2) := by
  constructor
  · induction t with
    | nil => rfl
    | cons p rest ih =>
        rcases p with ⟨r, segs⟩
        have hsub : ∀ n ∈ placeholders rest, (lookupVar m n).isSome := by
          intro n hn
          exact h n (by simp [placeholders] at hn ⊢; right; exact hn)
        have hseg : ∀ n ∈ segVars segs, (lookupVar m n).isSome := by
          intro n hn
          exact h n (by simp [placeholders]; left; exact hn)
        have hok := resolveSegs_ok_of_bound m segs hseg
        simp [format_messages, hok, ih hsub, Except.map]
  · intro hlit hval msg hmsg
    simp only [List.mem_map] at hmsg
    obtain ⟨⟨r, segs⟩, hp, hmsgeq⟩ := hmsg
    subst hmsgeq
    exact substSegs_braceFree m segs (fun s hs => hlit r segs hp s hs) hval

/-- Concrete instance of C1: a two-placeholder human-message template resolved
against a mapping supplying exactly those placeholders. -/
theorem C1_witness :
    format_messages
      [(Role.human, [Seg.lit "Write a ", Seg.var "style", Seg.lit " post about ",
        Seg.var "subject"])]
      [("style", "professional"), ("subject", "AI")]
      = .ok [(Role.human, "Write a professional post about AI")] := by
  have h := C1_resolution_succeeds_fully_substituted
    [(Role.human, [Seg.lit "Write a ", Seg.var "style", Seg.lit " post about ",
      Seg.var "subject"])]
    [("style", "professional"), ("subject", "AI")]
    (by decide)
  rw [h.1]
  rfl

/-- C2: for every template and input mapping that leaves at least one
placeholder unbound, `format_messages` fails (never returns a partially
substituted payload) with `MissingVariable` naming the first unresolved
placeholder, a placeholder the mapping indeed misses. -/
theorem C2_resolution_fails_on_missing (t : Template) (m : Mapping)
    (h : ∃ x ∈ placeholders t, lookupVar m x = none) :
    ∃ n, (placeholders t).find? (fun x => (lookupVar m x).isNone) = some n ∧
      format_messages t m = .error (.missingVariable n) ∧
      lookupVar m n = none := by
  obtain ⟨x, hx, hxnone⟩ := h
  have hsome : ((placeholders t).find? (fun x => (lookupVar m x).isNone)).isSome :=
    List.find?_isSome.mpr ⟨x, hx, by simp [hxnone]⟩
  obtain ⟨n, hn⟩ := Option.isSome_iff_exists.mp hsome
  refine ⟨n, hn, format_messages_error_of_find t m n hn, ?_⟩
  have := List.find?_some hn
  simpa [Option.isNone_iff_eq_none] using this

/-- Concrete instance of C2: a mapping missing the placeholder `subject`
makes resolution fail naming `subject`. -/
theorem C2_witness :
    format_messages
      [(Role.human, [Seg.lit "Write a ", Seg.var "style", Seg.lit " post about ",
        Seg.var "subject"])]
      [("style", "professional")]
      = .error (TemplateError.missingVariable "subject") := by
  have h := C2_resolution_fails_on_missing
    [(Role.human, [Seg.lit "Write a ", Seg.var "style", Seg.lit " post about ",
      Seg.var "subject"])]
    [("style", "professional")]
    ⟨"subject", by decide, by decide⟩
  obtain ⟨n, hfind, herr, -⟩ := h
  have hcomp : (placeholders
      [(Role.human, [Seg.lit "Write a ", Seg.var "style", Seg.lit " post about ",
        Seg.var "subject"])]).find?
      (fun x => (lookupVar [("style", "professional")] x).isNone)
      = some "subject" := by decide
  have hn : n = "subject" := Option.some.inj (hfind.symm.trans hcomp)
  rw [herr, hn]

/-! ## Pipelines and parallel composition (spec §4.3; caller:
src/06_1_parallel_runnable.py)

Modelled from the spec: the library's `RunnableParallel` is not part of the
repository, so parallel composition is modelled from spec §4.3: a pipeline is
a callable from an input to a result or a typed failure; `run_parallel` runs
every named branch on the same input and either collects every branch's
result by name or fails with a single aggregate failure naming a failing
branch.  Completion order is a concurrency notion with no observable effect
here: each branch's entry is exactly that branch applied to the input. -/

/-- Pipeline failure (spec §7): the external model call failed, or the
attached output parse failed. -/
inductive PipeError where
  | modelUnavailable
  | parseFailure (reason : String)
deriving DecidableEq, Repr

/-- A pipeline: a callable from input to result-or-typed-failure. -/
abbrev Pipeline (I O : Type) := I → Except PipeError O

/-- Run every named branch on the same input; collect all results by name, or
fail with the first failing branch's name and error. -/
def run_parallel {I O : Type} (branches : List (String × Pipeline I O))
    (input : I) : Except (String × PipeError) (List (String × O)) :=
  match branches with
  | [] => .ok []
  | (name, p) :: rest =>
      match p input with
      | .error e => .error (name, e)
      | .ok v => (run_parallel rest input).map (fun tail => (name, v) :: tail)

/-- C3: run_parallel behaves as independent runs of each branch on the same
input.  If every branch succeeds, the call returns a mapping with exactly the
branches' keys in which each branch's entry is that branch's own result on
the input; if some branch fails, the call fails with a single aggregate
failure carrying the name of a branch that indeed fails on the input. -/
theorem C3_run_parallel_independent {I O : Type}
    (branches : List (String × Pipeline I O)) (input : I) :
    ((∀ b ∈ branches, ∃ v, b.2 input = .ok v) →
      ∃ out, run_parallel branches input = .ok out ∧
        out.map Prod.fst = branches.map Prod.fst ∧
        ∀ b ∈ branches, ∀ v, b.2 input = .ok v → (b.1, v) ∈ out) ∧
    ((∃ b ∈ branches, ∃ e, b.2 input = .error e) →
      ∃ name e, run_parallel branches input = .error (name, e) ∧
        ∃ p, (name, p) ∈ branches ∧ p input = .error e) := by
  constructor
  · induction branches with
    | nil => intro _; exact ⟨[], rfl, rfl, by simp⟩
    | cons b' rest ih =>
        rcases b' with ⟨name, p⟩
        intro h
        obtain ⟨v, hv⟩ := h (name, p) (by simp)
        have hv' : p input = Except.ok v := hv
        obtain ⟨out, hout, hkeys, hmem⟩ := ih (fun b hb => h b (by simp [hb]))
        refine ⟨(name, v) :: out, ?_, ?_, ?_⟩
        · simp [run_parallel, hv', hout, Except.map]
        · simp [hkeys]
        · intro b hb w hw
          rcases List.mem_cons.mp hb with hb1 | hb2
          · subst hb1
            have : v = w := by
              have hw' : p input = Except.ok w := hw
              exact Except.ok.inj (hv'.symm.trans hw')
            subst this
            simp
          · exact List.mem_cons_of_mem _ (hmem b hb2 w hw)
  · induction branches with
    | nil => rintro ⟨b, hb, -⟩; simp at hb
    | cons b' rest ih =>
        rcases b' with ⟨name, p⟩
        rintro ⟨b, hb, e, he⟩
        cases hp : p input with
        | error e' =>
            exact ⟨name, e', by simp [run_parallel, hp], p, by simp, hp⟩
        | ok v =>
            have hbrest : b ∈ rest := by
              rcases List.mem_cons.mp hb with hb1 | hb2
              · exfalso
                subst hb1
                have he' : p input = Except.error e := he
                rw [hp] at he'
                exact Except.noConfusion he'
              · exact hb2
            obtain ⟨n', e', herr, p', hmem', hep'⟩ := ih ⟨b, hbrest, e, he⟩
            exact ⟨n', e', by simp [run_parallel, hp, herr, Except.map],
              p', List.mem_cons_of_mem _ hmem', hep'⟩

/-- A branch pipeline that always succeeds (stands in for the joke chain of
the parallel example). -/
def jokePipe : Pipeline String String := fun topic => .ok ("joke about " ++ topic)

/-- A second always-succeeding branch pipeline (the fact chain). -/
def factPipe : Pipeline String String := fun topic => .ok ("fact about " ++ topic)

/-- A branch pipeline whose Model Invoker fails. -/
def downPipe : Pipeline String String := fun _ => .error .modelUnavailable

/-- Concrete instance of C3: two succeeding branches produce a mapping with
both keys; an A-succeeds/B-fails pair fails identifying branch B. -/
theorem C3_witness :
    (∃ out, run_parallel [("joke", jokePipe), ("fact", factPipe)] "cats"
        = .ok out ∧ out.map Prod.fst = ["joke", "fact"]) ∧
    (∃ name e,
      run_parallel [("A", jokePipe), ("B", downPipe)] "cats" = .error (name, e) ∧
      ∃ p, (name, p) ∈ [("A", jokePipe), ("B", downPipe)] ∧
        p "cats" = .error e) := by
  constructor
  · obtain ⟨out, hok, hkeys, -⟩ :=
      (C3_run_parallel_independent
        [("joke", jokePipe), ("fact", factPipe)] "cats").1
        (by intro b hb; fin_cases hb <;> exact ⟨_, rfl⟩)
    exact ⟨out, hok, by simpa using hkeys⟩
  · exact (C3_run_parallel_independent
      [("A", jokePipe), ("B", downPipe)] "cats").2
      ⟨("B", downPipe), by simp, .modelUnavailable, rfl⟩

/-! ## Schemas and schema-directed output parsing (spec §3, §4.2; callers:
src/04_2_pydantic_output.py, src/04_3_nested_json.py)

Modelled from the spec: the library's `PydanticOutputParser`/`JsonOutputParser`
are not part of the repository, so parsing is modelled from spec §3/§4.2: a
Schema is a named set of fields, each with a declared type (string, integer,
float, boolean, list-of-string, or nested Schema) and a required flag;
parsing interprets a JSON-shaped response against the Schema, failing on a
missing required field or a type mismatch and substituting the explicit
absent-value marker only for optional fields.  The response text is modelled
at the level of its JSON structure (the textual lexing is the serialization
library's concern); numbers carry an exact decimal mantissa/exponent pair. -/

/-- A declared field type of a Schema; nested Schemas recurse. -/
inductive FieldTy where
  | str
  | int
  | float
  | bool
  | listStr
  | nested (fields : List (String × FieldTy × Bool))

/-- The fields of a Schema: name, declared type, required flag. -/
abbrev Schema := List (String × FieldTy × Bool)

/-- A parsed value: one constructor per declared type, an object of named
values for nested Schemas, and the explicit absent-value marker for optional
fields that were not supplied. -/
inductive Value where
  | vstr (s : String)
  | vint (n : Int)
  | vfloat (mantissa : Int) (exponent : Int)
  | vbool (b : Bool)
  | vlist (xs : List String)
  | vobj (fields : List (String × Value))
  | vabsent

/-- The JSON structure of a response text. -/
inductive JVal where
  | jstr (s : String)
  | jint (n : Int)
  | jfloat (mantissa : Int) (exponent : Int)
  | jbool (b : Bool)
  | jlist (xs : List String)
  | jobj (fields : List (String × JVal))
  | jnull

/-- Output-parsing failure (spec §7): carries the reason. -/
inductive ParseError where
  | typeMismatch (field : String)
  | missingRequired (field : String)
  | malformed (reason : String)
deriving DecidableEq, Repr

/-- The absent-value marker test. -/
def isAbsent : Value → Bool
  | .vabsent => true
  | _ => false

/-- Field names of a Schema, in declaration order. -/
def fieldNames (fs : Schema) : List String := fs.map Prod.fst

/-- Look up a member of a JSON object (first binding wins). -/
def jlookup : List (String × JVal) → String → Option JVal
  | [], _ => none
  | (k, v) :: rest, n => if k = n then some v else jlookup rest n

/-- Look up a field of a parsed result (first binding wins). -/
def getField : List (String × Value) → String → Option Value
  | [], _ => none
  | (k, v) :: rest, n => if k = n then some v else getField rest n

mutual
/-- A value conforms to a declared type. -/
def conformsTy : FieldTy → Value → Bool
  | .str, .vstr _ => true
  | .int, .vint _ => true
  | .float, .vfloat _ _ => true
  | .bool, .vbool _ => true
  | .listStr, .vlist _ => true
  | .nested fs, .vobj kvs => conformsFields fs kvs
  | _, _ => false
/-- A parsed result conforms to a Schema: same fields in declaration order,
each value of the declared type, with the absent marker allowed exactly on
optional fields. -/
def conformsFields : Schema → List (String × Value) → Bool
  | [], [] => true
  | (name, ty, required) :: restF, (n, v) :: restV =>
      n == name &&
      (if isAbsent v then !required else conformsTy ty v) &&
      conformsFields restF restV
  | _, _ => false
end

mutual
/-- A declared type is well formed: every nested Schema has distinct field
names (spec §3 calls a Schema a named set of fields). -/
def wfTy : FieldTy → Bool
  | .nested fs => wfFields fs
  | _ => true
/-- A Schema is well formed: distinct field names, recursively. -/
def wfFields : Schema → Bool
  | [] => true
  | (name, ty, _) :: rest =>
      !(decide (name ∈ fieldNames rest)) && wfTy ty && wfFields rest
end

mutual
/-- Serialize a parsed value to its response (JSON) form. -/
def serializeVal : Value → JVal
  | .vstr s => .jstr s
  | .vint n => .jint n
  | .vfloat m e => .jfloat m e
  | .vbool b => .jbool b
  | .vlist xs => .jlist xs
  | .vobj kvs => .jobj (serializeFields kvs)
  | .vabsent => .jnull
/-- Serialize an object's fields; fields holding the absent marker are
omitted from the serialized form. -/
def serializeFields : List (String × Value) → List (String × JVal)
  | [] => []
  | (n, v) :: rest =>
      if isAbsent v then serializeFields rest
      else (n, serializeVal v) :: serializeFields rest
end

mutual
/-- Parse a JSON value against a declared type; `name` is the field being
parsed, reported on mismatch. -/
def parseTy (name : String) : FieldTy → JVal → Except ParseError Value
  | .str, .jstr s => .ok (.vstr s)
  | .int, .jint n => .ok (.vint n)
  | .float, .jfloat m e => .ok (.vfloat m e)
  | .bool, .jbool b => .ok (.vbool b)
  | .listStr, .jlist xs => .ok (.vlist xs)
  | .nested fs, .jobj kvs => (parseFields fs kvs).map Value.vobj
  | _, _ => .error (.typeMismatch name)
/-- Parse a JSON object against a Schema: each required field must be present
with the declared type; each optional field missing from the object is bound
to the explicit absent-value marker, never a guessed default. -/
def parseFields : Schema → List (String × JVal) →
    Except ParseError (List (String × Value))
  | [], _ => .ok []
  | (name, ty, required) :: restF, kvs =>
      match jlookup kvs name with
      | some jv =>
          match parseTy name ty jv with
          | .error e => .error e
          | .ok v => (parseFields restF kvs).map (fun tail => (name, v) :: tail)
      | none =>
          if required then .error (.missingRequired name)
          else (parseFields restF kvs).map (fun tail => (name, .vabsent) :: tail)
end

/-! ### Round-trip lemmas -/

theorem isAbsent_iff (v : Value) : isAbsent v = true ↔ v = .vabsent := by
  cases v <;> simp [isAbsent]

theorem conformsFields_names (fs : Schema) (kvs : List (String × Value))
    (h : conformsFields fs kvs = true) : kvs.map Prod.fst = fieldNames fs := by
  induction fs generalizing kvs with
  | nil =>
      cases kvs with
      | nil => rfl
      | cons p rest => simp [conformsFields] at h
  | cons f restF ih =>
      rcases f with ⟨name, ty, required⟩
      cases kvs with
      | nil => simp [conformsFields] at h
      | cons p restV =>
          rcases p with ⟨n, v⟩
          simp only [conformsFields, Bool.and_eq_true, beq_iff_eq] at h
          obtain ⟨⟨hn, -⟩, hrest⟩ := h
          subst hn
          simp [fieldNames, ih restV hrest]

theorem jlookup_serializeFields_none (kvs : List (String × Value)) (n : String)
    (h : n ∉ kvs.map Prod.fst) : jlookup (serializeFields kvs) n = none := by
  induction kvs with
  | nil => rfl
  | cons p rest ih =>
      rcases p with ⟨k, v⟩
      simp only [List.map_cons, List.mem_cons, not_or] at h
      rw [serializeFields]
      by_cases ha : isAbsent v
      · rw [if_pos ha]
        exact ih h.2
      · rw [if_neg ha, jlookup, if_neg (fun hk => h.1 hk.symm)]
        exact ih h.2

theorem parseFields_skip (fs : Schema) (name : String) (jv : JVal)
    (kvs : List (String × JVal)) (h : name ∉ fieldNames fs) :
    parseFields fs ((name, jv) :: kvs) = parseFields fs kvs := by
  induction fs with
  | nil => rfl
  | cons f restF ih =>
      rcases f with ⟨n, ty, required⟩
      simp only [fieldNames, List.map_cons, List.mem_cons, not_or] at h
      have hn : ¬(name = n) := h.1
      have ihr := ih (by simpa [fieldNames] using h.2)
      rw [parseFields, parseFields, jlookup, if_neg hn]
      cases hl : jlookup kvs n with
      | none => simp [ihr]
      | some jv' =>
          cases hp : parseTy n ty jv' with
          | error e => simp [hp]
          | ok v => simp [hp, ihr]


mutual
theorem parseTy_serializeVal : (name : String) → (ty : FieldTy) → (v : Value) →
    conformsTy ty v = true → wfTy ty = true →
    parseTy name ty (serializeVal v) = .ok v
  | _, .str, v, hc, _ => by
      cases v <;> simp_all [conformsTy, serializeVal, parseTy]
  | _, .int, v, hc, _ => by
      cases v <;> simp_all [conformsTy, serializeVal, parseTy]
  | _, .float, v, hc, _ => by
      cases v <;> simp_all [conformsTy, serializeVal, parseTy]
  | _, .bool, v, hc, _ => by
      cases v <;> simp_all [conformsTy, serializeVal, parseTy]
  | _, .listStr, v, hc, _ => by
      cases v <;> simp_all [conformsTy, serializeVal, parseTy]
  | name, .nested fs, .vobj kvs, hc, hw => by
      have hrec := parseFields_serializeFields fs kvs
        (by simpa [conformsTy] using hc) (by simpa [wfTy] using hw)
      simp [serializeVal, parseTy, hrec, Except.map]
  | _, .nested fs, .vstr _, hc, _ => by simp [conformsTy] at hc
  | _, .nested fs, .vint _, hc, _ => by simp [conformsTy] at hc
  | _, .nested fs, .vfloat _ _, hc, _ => by simp [conformsTy] at hc
  | _, .nested fs, .vbool _, hc, _ => by simp [conformsTy] at hc
  | _, .nested fs, .vlist _, hc, _ => by simp [conformsTy] at hc
  | _, .nested fs, .vabsent, hc, _ => by simp [conformsTy] at hc
termination_by name ty v hc hw => sizeOf ty

theorem parseFields_serializeFields : (fs : Schema) →
    (kvs : List (String × Value)) →
    conformsFields fs kvs = true → wfFields fs = true →
    parseFields fs (serializeFields kvs) = .ok kvs
  | [], [], _, _ => rfl
  | [], _ :: _, hc, _ => by simp [conformsFields] at hc
  | (_, _, _) :: _, [], hc, _ => by simp [conformsFields] at hc
  | (name, ty, required) :: restF, (n, v) :: restV, hc, hw => by
      simp only [conformsFields, Bool.and_eq_true, beq_iff_eq] at hc
      obtain ⟨⟨hn, hcv⟩, hcrest⟩ := hc
      subst hn
      simp only [wfFields, Bool.and_eq_true, Bool.not_eq_true',
        decide_eq_false_iff_not] at hw
      obtain ⟨⟨hnotin, hwty⟩, hwrest⟩ := hw
      have hnames : restV.map Prod.fst = fieldNames restF :=
        conformsFields_names restF restV hcrest
      have hrec := parseFields_serializeFields restF restV hcrest hwrest
      by_cases ha : isAbsent v = true
      · have hv : v = .vabsent := (isAbsent_iff v).mp ha
        subst hv
        have hreq : required = false := by
          simpa [isAbsent] using hcv
        have hmiss : jlookup (serializeFields restV) n = none := by
          apply jlookup_serializeFields_none
          rw [hnames]
          exact hnotin
        rw [serializeFields, if_pos (by simp [isAbsent]), parseFields, hmiss]
        simp [hreq, hrec, Except.map]
      · have ha' : isAbsent v = false := Bool.not_eq_true _ ▸ ha
        have hcty : conformsTy ty v = true := by
          rw [ha'] at hcv
          simpa using hcv
        have hty := parseTy_serializeVal n ty v hcty hwty
        have hskip : parseFields restF
            ((n, serializeVal v) :: serializeFields restV)
            = parseFields restF (serializeFields restV) :=
          parseFields_skip restF n (serializeVal v) (serializeFields restV)
            hnotin
        rw [serializeFields, if_neg (by simp [ha'])]
        simp [parseFields, jlookup, hty, hskip, hrec, Except.map]
termination_by fs kvs hc hw => sizeOf fs
end

/-! ## Claim theorems: output parsing -/

/-- C4: round-trip.  For every well-formed Schema (distinct field names, as a
named set of fields has) and every value conforming to it, serializing the
value to its response form and parsing that back against the Schema succeeds
and returns the value exactly — optional fields that held the explicit
absent-value marker come back as that marker. -/
theorem C4_roundtrip (fs : Schema) (kvs : List (String × Value))
    (hw : wfFields fs = true) (hc : conformsFields fs kvs = true) :
    parseFields fs (serializeFields kvs) = .ok kvs :=
  parseFields_serializeFields fs kvs hc hw

/-- Concrete instance of C4: a movie-shaped value with an absent optional
rating round-trips exactly. -/
theorem C4_witness :
    parseFields
      [("title", FieldTy.str, true), ("year", FieldTy.int, true),
        ("rating", FieldTy.float, false)]
      (serializeFields
        [("title", Value.vstr "Blade Runner"), ("year", Value.vint 1982),
          ("rating", Value.vabsent)])
      = .ok [("title", Value.vstr "Blade Runner"), ("year", Value.vint 1982),
        ("rating", Value.vabsent)] :=
  C4_roundtrip
    [("title", FieldTy.str, true), ("year", FieldTy.int, true),
      ("rating", FieldTy.float, false)]
    [("title", Value.vstr "Blade Runner"), ("year", Value.vint 1982),
      ("rating", Value.vabsent)]
    (by rfl) (by rfl)

/-- C5: a required field absent from the response always makes parsing fail
with a `ParseError`, and parsing never substitutes a default for a required
field: whenever parsing succeeds, every required field of the Schema was
present in the response, and only fields the response omitted — necessarily
optional ones — are bound, to the explicit absent-value marker. -/
theorem C5_required_never_defaulted (fs : Schema) (kvs : List (String × JVal)) :
    (∀ name ty, (name, ty, true) ∈ fs → jlookup kvs name = none →
      ∃ e, parseFields fs kvs = .error e) ∧
    (∀ out, parseFields fs kvs = .ok out →
      ∀ name ty required, (name, ty, required) ∈ fs →
        (required = true → (jlookup kvs name).isSome) ∧
        (jlookup kvs name = none → (name, Value.vabsent) ∈ out)) := by
  induction fs generalizing kvs with
  | nil =>
      refine ⟨fun name ty hmem _ => absurd hmem (by simp), ?_⟩
      intro out _ name ty required hmem
      exact absurd hmem (by simp)
  | cons f restF ih =>
      rcases f with ⟨n', ty', required'⟩
      constructor
      · intro name ty hmem hmiss
        rcases List.mem_cons.mp hmem with hhead | htail
        · have hname : name = n' := congrArg Prod.fst hhead
          have hreq : required' = true := (congrArg (fun p => p.2.2) hhead).symm
          subst hname
          exact ⟨.missingRequired name, by simp [parseFields, hmiss, hreq]⟩
        · cases hl : jlookup kvs n' with
          | none =>
              by_cases hr : required' = true
              · exact ⟨.missingRequired n', by simp [parseFields, hl, hr]⟩
              · obtain ⟨e, he⟩ := (ih kvs).1 name ty htail hmiss
                exact ⟨e, by simp [parseFields, hl, hr, he, Except.map]⟩
          | some jv =>
              cases hp : parseTy n' ty' jv with
              | error e => exact ⟨e, by simp [parseFields, hl, hp]⟩
              | ok v =>
                  obtain ⟨e, he⟩ := (ih kvs).1 name ty htail hmiss
                  exact ⟨e, by simp [parseFields, hl, hp, he, Except.map]⟩
      · intro out hout name ty required hmem
        cases hl : jlookup kvs n' with
        | some jv =>
            simp only [parseFields, hl] at hout
            cases hp : parseTy n' ty' jv with
            | error e =>
                simp only [hp] at hout
                exact absurd hout (by simp)
            | ok v =>
                simp only [hp] at hout
                cases hrest : parseFields restF kvs with
                | error e =>
                    simp only [hrest, Except.map] at hout
                    exact absurd hout (by simp)
                | ok tail =>
                    simp only [hrest, Except.map] at hout
                    have hout' : (n', v) :: tail = out := by
                      simpa using hout
                    rcases List.mem_cons.mp hmem with hhead | htail
                    · have hname : name = n' := congrArg Prod.fst hhead
                      subst hname
                      refine ⟨fun _ => by simp [hl], fun hm => ?_⟩
                      rw [hl] at hm
                      exact absurd hm (by simp)
                    · have := ((ih kvs).2 tail hrest name ty required htail)
                      exact ⟨this.1, fun hm => hout' ▸ List.mem_cons_of_mem _ (this.2 hm)⟩
        | none =>
            simp only [parseFields, hl] at hout
            by_cases hr : required' = true
            · rw [if_pos hr] at hout
              exact absurd hout (by simp)
            · rw [if_neg hr] at hout
              cases hrest : parseFields restF kvs with
              | error e =>
                  simp only [hrest, Except.map] at hout
                  exact absurd hout (by simp)
              | ok tail =>
                  simp only [hrest, Except.map] at hout
                  have hout' : (n', Value.vabsent) :: tail = out := by
                    simpa using hout
                  rcases List.mem_cons.mp hmem with hhead | htail
                  · have hname : name = n' := congrArg Prod.fst hhead
                    have hreqe : required = required' := congrArg (fun p => p.2.2) hhead
                    subst hname
                    refine ⟨fun hq => absurd (hreqe ▸ hq) hr, fun _ => ?_⟩
                    exact hout' ▸ List.mem_cons_self _ _
                  · have := ((ih kvs).2 tail hrest name ty required htail)
                    exact ⟨this.1, fun hm => hout' ▸ List.mem_cons_of_mem _ (this.2 hm)⟩

/-- Concrete instance of C5: a response missing the required `title` field
fails to parse. -/
theorem C5_witness :
    ∃ e, parseFields
      [("title", FieldTy.str, true), ("rating", FieldTy.float, false)] []
      = .error e :=
  (C5_required_never_defaulted
    [("title", FieldTy.str, true), ("rating", FieldTy.float, false)] []).1
    "title" FieldTy.str (by simp) rfl

/-- Access `outer.inner` in a parsed result whose `outer` field is a nested
object. -/
def getPath (r : List (String × Value)) (outer inner : String) : Option Value :=
  match getField r outer with
  | some (.vobj kv) => getField kv inner
  | _ => none

/-- C7: parsing the response `name: Acme, headquarters: (city: Reno)` against
the nested schema Company (name: string, headquarters: Address (city: string))
succeeds, resolving the nested Schema recursively, and the parsed result's
`headquarters.city` equals `Reno`. -/
theorem C7_nested_schema_parse :
    parseFields
      [("name", FieldTy.str, true),
        ("headquarters", FieldTy.nested [("city", FieldTy.str, true)], true)]
      [("name", JVal.jstr "Acme"),
        ("headquarters", JVal.jobj [("city", JVal.jstr "Reno")])]
      = .ok [("name", Value.vstr "Acme"),
        ("headquarters", Value.vobj [("city", Value.vstr "Reno")])] ∧
    getPath
      [("name", Value.vstr "Acme"),
        ("headquarters", Value.vobj [("city", Value.vstr "Reno")])]
      "headquarters" "city" = some (Value.vstr "Reno") :=
  ⟨rfl, rfl⟩

/-! ## The comma-separated list parser (spec §4.2; caller:
src/04_1_comma_separated_list.py)

Modelled from the spec: the library's list parser is not part of the
repository; spec §4.2 defines the variant as splitting the response into a
comma-delimited sequence of trimmed items, failing only if the response
cannot be split into a non-empty sequence — modelled as the response being
empty after trimming. -/

/-- Whitespace characters stripped from list items. -/
def isSpaceChar (c : Char) : Bool :=
  c = ' ' || c = '\t' || c = '\n' || c = '\r'

/-- Split a character sequence at commas (accumulator holds the current item
reversed). -/
def splitCommaAux : List Char → List Char → List (List Char)
  | [], acc => [acc.reverse]
  | c :: rest, acc =>
      if c = ',' then acc.reverse :: splitCommaAux rest []
      else splitCommaAux rest (c :: acc)

/-- Strip leading and trailing whitespace. -/
def trimChars (s : List Char) : List Char :=
  ((s.dropWhile isSpaceChar).reverse.dropWhile isSpaceChar).reverse

/-- The list parser: split the response at commas and trim each item; fail
only when the response is empty after trimming (it cannot be split into a
non-empty sequence). -/
def parse_list (text : String) : Except ParseError (List String) :=
  if trimChars text.data = [] then .error (.malformed "empty response")
  else .ok ((splitCommaAux text.data []).map (fun cs => String.mk (trimChars cs)))

/-- C6: the list parser maps `Python, JavaScript, Go` to the ordered
three-item sequence whose first element is `Python`, and in general it fails
exactly when the response text is empty after trimming (cannot be split into
a non-empty comma-delimited sequence). -/
theorem C6_list_parse :
    parse_list "Python, JavaScript, Go" = .ok ["Python", "JavaScript", "Go"] ∧
    (∀ xs, parse_list "Python, JavaScript, Go" = .ok xs →
      xs.length = 3 ∧ xs.head? = some "Python") ∧
    (∀ text : String,
      (∃ e, parse_list text = .error e) ↔ trimChars text.data = []) := by
  refine ⟨rfl, ?_, ?_⟩
  · intro xs h
    have hx : xs = ["Python", "JavaScript", "Go"] :=
      (Except.ok.inj ((show parse_list "Python, JavaScript, Go"
        = Except.ok ["Python", "JavaScript", "Go"] from rfl).symm.trans h)).symm
    subst hx
    exact ⟨rfl, rfl⟩
  · intro text
    constructor
    · rintro ⟨e, he⟩
      by_cases ht : trimChars text.data = []
      · exact ht
      · simp [parse_list, ht] at he
    · intro ht
      exact ⟨.malformed "empty response", by simp [parse_list, ht]⟩

/-- Concrete instance of C6: the failure condition at the empty response, and
the three-item parse. -/
theorem C6_witness :
    (∃ e, parse_list "" = .error e) ∧
    (["Python", "JavaScript", "Go"] : List String).length = 3 :=
  ⟨(C6_list_parse.2.2 "").mpr rfl,
    (C6_list_parse.2.1 ["Python", "JavaScript", "Go"] rfl).1⟩

/-! ## Agent and function-calling dispatch (src/10_agents.py lines 86-89;
src/09_functions.py lines 84-87; agent states from spec §4.4)

The dispatch conditionals here are in the repository and are embedded from
the source.  Tool bodies wrap external effects (an arithmetic `eval`, the
clock, mock weather data); no claim concerns their outputs, which are
modelled as strings (stand-ins for JSON-serializable values). -/

/-- Named arguments passed to a tool. -/
abbrev ToolArgs := List (String × String)

/-- A registry entry: a callable from named arguments to a result. -/
abbrev Tool := ToolArgs → String

/-- The structured decision of src/10_agents.py (`AgentThought`): an action
(`use_tool` or `final_answer`) with optional tool name, tool input and final
answer. -/
structure AgentThought where
  thought : String
  action : String
  tool_name : Option String
  tool_input : Option ToolArgs
  final_answer : Option String

/-- The `calculator` tool of src/10_agents.py; its body delegates to an
arithmetic `eval` (an external effect whose result is not modelled). -/
def calculator : Tool := fun args =>
  "eval " ++ (lookupVar args "expression").getD ""

/-- The `get_date_info` tool of src/10_agents.py; its body reads the clock
(an external effect whose result is not modelled). -/
def get_date_info : Tool := fun _ => "current date"

/-- The `get_weather` tool of src/09_functions.py: mock data keyed by the
lowercased city, with a fixed default for unknown cities. -/
def get_weather : Tool := fun args =>
  let city := ((lookupVar args "city").getD "").toLower
  if city = "london" then "temp 58 cloudy"
  else if city = "tokyo" then "temp 68 sunny"
  else "temp 65 unknown"

/-- The `calculate_date` tool of src/09_functions.py; its body reads the
clock (an external effect whose result is not modelled). -/
def calculate_date : Tool := fun _ => "computed date"

/-- The agent example's tool registry (src/10_agents.py line 87). -/
def tools : List (String × Tool) :=
  [("calculator", calculator), ("get_date_info", get_date_info)]

/-- The function-calling example's registry (src/09_functions.py line 84). -/
def function_map : List (String × Tool) :=
  [("get_weather", get_weather), ("calculate_date", calculate_date)]

/-- Look up a tool by name in a registry (first binding wins). -/
def lookupTool : List (String × Tool) → String → Option Tool
  | [], _ => none
  | (k, f) :: rest, n => if k = n then some f else lookupTool rest n

/-- Python truthiness of the optional tool name (src/10_agents.py line 86:
`and thought["tool_name"]`): `None` and the empty string are falsy. -/
def truthyName : Option String → Bool
  | none => false
  | some s => s != ""

/-- What one dispatch step did: invoked a named tool, silently did nothing,
or failed on a registry lookup of a missing name. -/
inductive StepOutcome where
  | toolInvoked (name : String) (output : String)
  | noTool
  | failed (name : String)
deriving DecidableEq, Repr

/-- The tool-dispatch conditional of src/10_agents.py lines 86-89: a tool
runs only when the action is `use_tool` and the tool name is truthy; a truthy
name absent from the registry is a failing lookup (Python raises `KeyError`),
modelled as `failed`; the tool input defaults to the empty mapping
(`thought["tool_input"] or` the empty dict). -/
def agent_step (reg : List (String × Tool)) (t : AgentThought) : StepOutcome :=
  if t.action == "use_tool" && truthyName t.tool_name then
    let name := t.tool_name.getD ""
    match lookupTool reg name with
    | none => .failed name
    | some f => .toolInvoked name (f (t.tool_input.getD []))
  else .noTool

/-- The function-dispatch conditional of src/09_functions.py lines 84-87:
`if result["function_name"] in function_map:` — a name present in the
registry is invoked; an absent name is silently skipped. -/
def function_call_step (reg : List (String × Tool)) (name : String)
    (args : ToolArgs) : StepOutcome :=
  match lookupTool reg name with
  | some f => .toolInvoked name (f args)
  | none => .noTool

/-- The two agent states of spec §4.4. -/
inductive AgentState where
  | deciding
  | done (answer : String)
deriving DecidableEq, Repr

/-- Modelled from the spec: §4.4's deciding/done state machine (the source
performs the dispatch conditional but keeps no explicit state); a
`final_answer` decision moves to `done` with the answer text, any other
decision stays `deciding` after the source's dispatch step. -/
def agent_transition (reg : List (String × Tool)) (t : AgentThought) :
    AgentState × StepOutcome :=
  if t.action == "final_answer" then
    (.done (t.final_answer.getD ""), .noTool)
  else (.deciding, agent_step reg t)

/-! ## Claim theorems: agent and tool dispatch -/

/-- C8: a decision whose action is `final_answer` transitions the state
machine directly from deciding to done carrying the final answer text, and
no tool from the registry is invoked. -/
theorem C8_final_answer_no_tool (reg : List (String × Tool)) (t : AgentThought)
    (ans : String) (ha : t.action = "final_answer")
    (hf : t.final_answer = some ans) :
    agent_transition reg t = (.done ans, .noTool) := by
  simp [agent_transition, ha, hf]

/-- Concrete instance of C8: the decision payload with action `final_answer`
and final answer `42` reaches `done 42` with no tool invoked. -/
theorem C8_witness :
    agent_transition tools
      ⟨"I know the answer", "final_answer", none, none, some "42"⟩
      = (AgentState.done "42", StepOutcome.noTool) :=
  C8_final_answer_no_tool tools
    ⟨"I know the answer", "final_answer", none, none, some "42"⟩ "42" rfl rfl

/-- C9 as amended: a truthy tool name absent from the registry makes the
agent example's dispatch fail with a lookup failure naming the tool (the
uncaught `KeyError`), surfaced to the caller; the function-calling example,
by contrast, silently skips an absent function name without any failure. -/
theorem C9_lookup_miss (reg : List (String × Tool)) (name : String) :
    (∀ t : AgentThought, t.action = "use_tool" → t.tool_name = some name →
      name ≠ "" → lookupTool reg name = none → agent_step reg t = .failed name) ∧
    (∀ args, lookupTool reg name = none →
      function_call_step reg name args = .noTool) := by
  constructor
  · intro t ha hn hne hmiss
    have htr : truthyName (some name) = true := by
      simp [truthyName, hne]
    simp [agent_step, ha, hn, htr, hmiss]
  · intro args hmiss
    simp [function_call_step, hmiss]

/-- C9 counterexample to the claim as stated: in the function-calling
example, dispatching the name `teleport`, absent from the registry, is
silently skipped — no `UnknownTool` (nor any other) failure is surfaced. -/
theorem C9_counterexample :
    function_call_step function_map "teleport" [] = StepOutcome.noTool := rfl

/-- Concrete instance of the amended C9: the agent example fails loudly on
the absent name `teleport`, the function-calling example skips it. -/
theorem C9_witness :
    agent_step tools ⟨"need a tool", "use_tool", some "teleport", none, none⟩
      = StepOutcome.failed "teleport" ∧
    function_call_step function_map "teleport" [] = StepOutcome.noTool :=
  ⟨(C9_lookup_miss tools "teleport").1
      ⟨"need a tool", "use_tool", some "teleport", none, none⟩
      rfl rfl (by decide) rfl,
    (C9_lookup_miss function_map "teleport").2 [] rfl⟩

/-- C10: a decision with action `use_tool` but a null or empty tool name
invokes no tool and completes with no failure (the branch is silently
skipped); conversely, a tool is invoked only when the action is `use_tool`
and the tool name is present and non-empty. -/
theorem C10_use_tool_without_name (reg : List (String × Tool))
    (t : AgentThought) :
    (t.action = "use_tool" → t.tool_name = none ∨ t.tool_name = some "" →
      agent_step reg t = .noTool) ∧
    (∀ name out, agent_step reg t = .toolInvoked name out →
      t.action = "use_tool" ∧ ∃ s, t.tool_name = some s ∧ s ≠ "") := by
  constructor
  · intro _ hn
    rcases hn with h | h <;> simp [agent_step, truthyName, h]
  · intro name out h
    cases hg : (t.action == "use_tool" && truthyName t.tool_name) with
    | false =>
        rw [agent_step, if_neg (by simp [hg])] at h
        exact absurd h (by simp)
    | true =>
        simp only [Bool.and_eq_true, beq_iff_eq] at hg
        obtain ⟨ha, htr⟩ := hg
        cases htn : t.tool_name with
        | none => rw [htn] at htr; simp [truthyName] at htr
        | some s =>
            rw [htn] at htr
            have hs : s ≠ "" := by simpa [truthyName] using htr
            exact ⟨ha, s, rfl, hs⟩

/-- Concrete instance of C10: a `use_tool` decision with a null tool name is
silently skipped. -/
theorem C10_witness :
    agent_step tools ⟨"no tool chosen", "use_tool", none, none, none⟩
      = StepOutcome.noTool :=
  (C10_use_tool_without_name tools
    ⟨"no tool chosen", "use_tool", none, none, none⟩).1 rfl (Or.inl rfl)
